import Mathlib

/-!
# marco-ecs: the reconciliation pass of `main.go`

A shallow embedding of `getList`, its helpers `getContainerEnv`, `getContainerInstance`,
`getEc2IP`, and of `Push`, followed by theorems about them.

Modelling conventions.

* The remote services (ECS, EC2, Marco) are a `World`: every query is a function of its
  arguments, so one pass sees one fixed set of snapshots.
* A computation is a `Run α`: the value it returns, or `crash` for a Go run-time panic
  (nil dereference, index out of range), together with the sequence of remote calls and
  log lines it performed.
* aws-sdk-go types every scalar field as a pointer.  The fields of the ECS records that
  the service always fills in are plain values here; `PublicIpAddress`, which EC2 leaves
  out for an instance without a public address, is an `Option`.  Slices are lists, and
  reading element `0` of an empty one crashes.
* A Go `map[string]V` is an association list with distinct keys, in insertion order;
  reading a missing key gives the zero value of `V`.  Go leaves the order in which `range`
  visits a map unspecified: the order is a component of the `World`.
* `int64` ports are integers; no arithmetic is done on them, they are only printed.
-/

set_option autoImplicit false

namespace MarcoEcs

/-! ## Data model (the fields of the SDK records that `main.go` reads) -/

/-- A Go `error` value, by its message. -/
abbrev GoError := String

/-- The record `ecs.NetworkBinding`. -/
structure NetworkBinding where
  ContainerPort : Int
  HostPort : Int
  deriving DecidableEq, Repr

/-- The record `ecs.Container`. -/
structure Container where
  Name : String
  NetworkBindings : List NetworkBinding
  deriving DecidableEq, Repr

/-- The record `ecs.Task`. -/
structure Task where
  TaskDefinitionArn : String
  ContainerInstanceArn : String
  Containers : List Container
  deriving DecidableEq, Repr

/-- The record `ecs.KeyValuePair`. -/
structure KeyValuePair where
  Name : String
  Value : String
  deriving DecidableEq, Repr

/-- The record `ecs.ContainerDefinition`. -/
structure ContainerDefinition where
  Name : String
  Environment : List KeyValuePair
  deriving DecidableEq, Repr

/-- The record `ecs.TaskDefinition`. -/
structure TaskDefinition where
  ContainerDefinitions : List ContainerDefinition
  deriving DecidableEq, Repr

/-- The record `ecs.ContainerInstance`. -/
structure ContainerInstance where
  Ec2InstanceId : String
  deriving DecidableEq, Repr

/-- The record `ec2.Instance`. -/
structure Instance where
  PublicIpAddress : Option String
  deriving DecidableEq, Repr

/-- The record `ec2.Reservation`. -/
structure Reservation where
  Instances : List Instance
  deriving DecidableEq, Repr

/-- The record `marco.Backend`, as `Push` fills it in (`Typ` is its field `Type`). -/
structure Backend where
  Typ : String
  Domain : String
  List : List String
  deriving DecidableEq, Repr

/-- The command-line flags of `main.go`. -/
structure Config where
  cliMarco : String
  cliRegion : String
  cliCluster : String
  cliPorts : String
  deriving DecidableEq, Repr

/-- The flag defaults declared in `main.go`. -/
def defaultConfig : Config :=
  { cliMarco := "http://localhost:81"
    cliRegion := "ap-southeast-2"
    cliCluster := "default"
    cliPorts := "80,8080,2368,8983" }

/-- The constant `name` of `main.go`. -/
def name : String := "ecs"

/-! ## Go maps -/

/-- A Go `map[string]V`: distinct keys, in insertion order. -/
abbrev GoMap (V : Type) := List (String × V)

namespace GoMap

variable {V : Type}

/-- The keys of a map. -/
def keys (m : GoMap V) : List String := m.map Prod.fst

/-- The index expression `m[k]`, with `zero` the zero value of `V`. -/
def get (zero : V) : GoMap V → String → V
  | [], _ => zero
  | (k', v) :: m, k => if k' = k then v else get zero m k

/-- The assignment `m[k] = v`. -/
def set : GoMap V → String → V → GoMap V
  | [], k, v => [(k, v)]
  | (k', v') :: m, k, v => if k' = k then (k, v) :: m else (k', v') :: set m k v

end GoMap

/-- The type of `list` in `getList`. -/
abbrev EndpointMap := GoMap (List String)

/-- The type of `ips` in `getList`. -/
abbrev IpMap := GoMap String

/-- Reading `list[d]`: a missing key gives the nil slice. -/
def EndpointMap.at (m : EndpointMap) (d : String) : List String := GoMap.get [] m d

/-- Reading `ips[arn]`: a missing key gives the empty string. -/
def IpMap.at (m : IpMap) (arn : String) : String := GoMap.get "" m arn

/-! ## The remote services and the effects of a pass -/

/-- What a pass does to the outside: remote calls and log lines. -/
inductive Event where
  | ListTasks (cluster : String)
  | DescribeTasks (cluster : String) (tasks : List String)
  | ListContainerInstances (cluster : String)
  | DescribeContainerInstances (cluster : String) (arn : String)
  | DescribeTaskDefinition (definition : String)
  | DescribeInstances (id : String)
  | Send (b : List Backend) (url : String)
  | LogInfo (msg : String)
  deriving DecidableEq, Repr

/-- The snapshots one pass reads: the answer of every query, and the order in which
`range` visits a map. -/
structure World where
  ListTasks : String → Except GoError (List String)
  DescribeTasks : String → List String → Except GoError (List Task)
  ListContainerInstances : String → Except GoError (List String)
  DescribeContainerInstances : String → String → Except GoError (List ContainerInstance)
  DescribeTaskDefinition : String → Except GoError TaskDefinition
  DescribeInstances : String → Except GoError (List Reservation)
  Send : List Backend → String → Option GoError
  rangeOrder : EndpointMap → EndpointMap
  rangeOrder_perm : ∀ m, (rangeOrder m).Perm m

/-- How a Go call ends: it returns a value, or the goroutine panics. -/
inductive Outcome (α : Type) where
  | ret (a : α)
  | crash
  deriving DecidableEq, Repr

/-- A computation: its outcome and the events it performed, oldest first. -/
structure Run (α : Type) where
  result : Outcome α
  trace : List Event

namespace Run

variable {α β : Type}

/-- Return a value, doing nothing. -/
def ret (a : α) : Run α := ⟨.ret a, []⟩

/-- A run-time panic. -/
def crash : Run α := ⟨.crash, []⟩

/-- Record an event and return `a`. -/
def emit (e : Event) (a : α) : Run α := ⟨.ret a, [e]⟩

/-- Sequencing: a crash stops the computation, the events so far are kept. -/
def andThen (x : Run α) (f : α → Run β) : Run β :=
  match x.result with
  | .crash => ⟨.crash, x.trace⟩
  | .ret a => ⟨(f a).result, x.trace ++ (f a).trace⟩

instance : Monad Run where
  pure := ret
  bind := andThen

/-- A `for _, a := range xs` loop over a slice, threading the loop state `s`. -/
def forEach {σ : Type} (body : σ → α → Run σ) : List α → σ → Run σ
  | [], s => ret s
  | a :: as, s => andThen (body s a) (fun s' => forEach body as s')

end Run

/-- The call `log.Info(err)`. -/
def logInfo (msg : String) : Run Unit := Run.emit (.LogInfo msg) ()

/-! ## `strconv.FormatInt` and `strings.Contains` -/

/-- The call `strconv.FormatInt(i, 10)`. -/
def FormatInt (i : Int) : String :=
  match i with
  | .ofNat n => Nat.repr n
  | .negSucc n => "-" ++ Nat.repr (n + 1)

/-- Does `s` start with `p`? -/
def startsWith : List Char → List Char → Bool
  | _, [] => true
  | [], _ :: _ => false
  | c :: s, p :: ps => decide (c = p) && startsWith s ps

/-- Does `sub` occur in `s` at some position? -/
def containsChars : List Char → List Char → Bool
  | [], sub => startsWith [] sub
  | c :: s, sub => startsWith (c :: s) sub || containsChars s sub

/-- The call `strings.Contains(s, substr)`.  Go compares bytes; on well-formed UTF-8 an
occurrence of bytes is an occurrence of characters, and the needle here is always a
decimal numeral. -/
def Contains (s substr : String) : Bool := containsChars s.data substr.data

/-! ## The helpers of `main.go` -/

/-- The inner loop of `getContainerEnv`: the value of the first entry named `key`. -/
def envLookup (key : String) : List KeyValuePair → Option String
  | [] => none
  | e :: es => if e.Name = key then some e.Value else envLookup key es

/-- The outer loop of `getContainerEnv`: definitions with another name are passed over,
one with the right name returns the value of its first entry named `key`, and the loop
goes on when it has none. -/
def searchDefinitions (name key : String) : List ContainerDefinition → String
  | [] => ""
  | c :: cs =>
    if c.Name ≠ name then searchDefinitions name key cs
    else
      match envLookup key c.Environment with
      | some v => v
      | none => searchDefinitions name key cs

/-- The function `getContainerEnv`. -/
def getContainerEnv (w : World) (definition name key : String) : Run String := do
  let tasksDefOutput ←
    Run.emit (.DescribeTaskDefinition definition) (w.DescribeTaskDefinition definition)
  match tasksDefOutput with
  | .error err => do
    logInfo err
    return ""
  | .ok out => return searchDefinitions name key out.ContainerDefinitions

/-- The function `getContainerInstance`: `none` is the nil pointer it returns when the
query fails. -/
def getContainerInstance (w : World) (cfg : Config) (arn : String) :
    Run (Option ContainerInstance) := do
  let resp ← Run.emit (.DescribeContainerInstances cfg.cliCluster arn)
    (w.DescribeContainerInstances cfg.cliCluster arn)
  match resp with
  | .error err => do
    logInfo err
    return none
  | .ok containerInstances =>
    match containerInstances with
    | [] => Run.crash
    | ci :: _ => return some ci

/-- The function `getEc2IP`. -/
def getEc2IP (w : World) (id : String) : Run String := do
  let resp ← Run.emit (.DescribeInstances id) (w.DescribeInstances id)
  match resp with
  | .error err => do
    logInfo err
    return ""
  | .ok reservations =>
    match reservations with
    | [] => Run.crash
    | r :: _ =>
      match r.Instances with
      | [] => Run.crash
      | i :: _ =>
        match i.PublicIpAddress with
        | none => Run.crash
        | some ip => return ip

/-! ## `getList` -/

/-- The body of the loop over `instances.ContainerInstanceArns` (lines 121-124): reading
`Ec2InstanceId` through the nil pointer crashes. -/
def hostStep (w : World) (cfg : Config) (ips : IpMap) (i : String) : Run IpMap := do
  let containerInstance ← getContainerInstance w cfg i
  match containerInstance with
  | none => Run.crash
  | some ci => do
    let ip ← getEc2IP w ci.Ec2InstanceId
    return GoMap.set ips i ip

/-- The body of the loop over `c.NetworkBindings` (lines 137-149). -/
def bindingStep (cfg : Config) (ips : IpMap) (t : Task) (domain : String)
    (list : EndpointMap) (p : NetworkBinding) : Run EndpointMap :=
  let containerPort := FormatInt p.ContainerPort
  if !Contains cfg.cliPorts containerPort then
    return list
  else
    let hostIP := ips.at t.ContainerInstanceArn
    let hostPort := FormatInt p.HostPort
    let url := "http://" ++ hostIP ++ ":" ++ hostPort
    return GoMap.set list domain (list.at domain ++ [url])

/-- The body of the loop over `t.Containers` (lines 128-150). -/
def containerStep (w : World) (cfg : Config) (ips : IpMap) (t : Task)
    (list : EndpointMap) (c : Container) : Run EndpointMap := do
  let domain ← getContainerEnv w t.TaskDefinitionArn c.Name "DOMAIN"
  if domain = "" then
    return list
  else
    Run.forEach (bindingStep cfg ips t domain) c.NetworkBindings list

/-- The body of the loop over `described.Tasks` (lines 127-151). -/
def taskStep (w : World) (cfg : Config) (ips : IpMap)
    (list : EndpointMap) (t : Task) : Run EndpointMap :=
  Run.forEach (containerStep w cfg ips t) t.Containers list

/-- The loop that fills `ips` (lines 121-124). -/
def resolveHosts (w : World) (cfg : Config) (instances : List String) : Run IpMap :=
  Run.forEach (hostStep w cfg) instances []

/-- The function `getList`: the mapping and the error it returns. -/
def getList (w : World) (cfg : Config) : Run (EndpointMap × Option GoError) := do
  let list : EndpointMap := []
  let tasks ← Run.emit (.ListTasks cfg.cliCluster) (w.ListTasks cfg.cliCluster)
  match tasks with
  | .error err => return (list, some err)
  | .ok taskArns => do
    let described ← Run.emit (.DescribeTasks cfg.cliCluster taskArns)
      (w.DescribeTasks cfg.cliCluster taskArns)
    match described with
    | .error err => return (list, some err)
    | .ok describedTasks => do
      let instances ← Run.emit (.ListContainerInstances cfg.cliCluster)
        (w.ListContainerInstances cfg.cliCluster)
      match instances with
      | .error err => return (list, some err)
      | .ok containerInstanceArns => do
        let ips ← resolveHosts w cfg containerInstanceArns
        let list ← Run.forEach (taskStep w cfg ips) describedTasks list
        return (list, none)

/-! ## `Push` -/

/-- The record `Push` builds for the entry `d, l` of the mapping. -/
def toBackend (dl : String × List String) : Backend :=
  { Typ := name, Domain := dl.1, List := dl.2 }

/-- The function `Push`.  Its parameter is not used: the destination is `*cliMarco`. -/
def Push (w : World) (cfg : Config) (_m : String) : Run Unit := do
  let (list, err) ← getList w cfg
  match err with
  | some e => logInfo e
  | none => do
    let b := (w.rangeOrder list).foldl (fun b dl => b ++ [toBackend dl]) []
    let err ← Run.emit (.Send b cfg.cliMarco) (w.Send b cfg.cliMarco)
    match err with
    | some e => logInfo e
    | none => logInfo "Successfully pushed data to Marco."

/-! ## Notions the statements use -/

/-- The payloads handed to `marco.Send`, in order. -/
def sentPayloads : List Event → List (List Backend)
  | [] => []
  | .Send b _ :: es => b :: sentPayloads es
  | _ :: es => sentPayloads es

/-- Is the event a call to the EC2 address query? -/
def Event.isDescribeInstances : Event → Bool
  | .DescribeInstances _ => true
  | _ => false

/-- The string `sub` occurs in `s` as a contiguous run of characters. -/
def IsSubstring (sub s : String) : Prop :=
  ∃ pre post : List Char, s.data = pre ++ sub.data ++ post

/-- Cut a character sequence at every comma. -/
def splitComma : List Char → List (List Char)
  | [] => [[]]
  | c :: cs =>
    if c = ',' then [] :: splitComma cs
    else
      match splitComma cs with
      | [] => [[c]]
      | x :: xs => (c :: x) :: xs

/-- The ports an allow-list names: its comma-separated items. -/
def allowListPorts (ports : String) : List String :=
  (splitComma ports.data).map String.mk

/-- Exact membership: the decimal numeral of `port` is one of the items of the list. -/
def InAllowList (ports : String) (port : Int) : Prop :=
  FormatInt port ∈ allowListPorts ports

instance (ports : String) (port : Int) : Decidable (InAllowList ports port) := by
  unfold InAllowList; infer_instance

/-- The port check of `getList` on a binding. -/
def passesPortCheck (cfg : Config) (p : NetworkBinding) : Bool :=
  Contains cfg.cliPorts (FormatInt p.ContainerPort)

/-- The endpoint `getList` builds for binding `p` of task `t`. -/
def endpointOf (ips : IpMap) (t : Task) (p : NetworkBinding) : String :=
  "http://" ++ ips.at t.ContainerInstanceArn ++ ":" ++ FormatInt p.HostPort

/-- Container `c` of task `t` has domain `d`: its `DOMAIN` value, resolved from the
task definition of `t`, is `d`, and `d` is not empty. -/
def HasDomain (w : World) (t : Task) (c : Container) (d : String) : Prop :=
  (getContainerEnv w t.TaskDefinitionArn c.Name "DOMAIN").result = .ret d ∧ d ≠ ""

instance (w : World) (t : Task) (c : Container) (d : String) :
    Decidable (HasDomain w t c d) := by
  unfold HasDomain; infer_instance

/-- The discovery walk of the specification: the tasks in order, their containers in
order, their bindings in order, keeping the bindings that pass the port check in a
container whose domain is `d`. -/
def passingBindings (w : World) (cfg : Config) (tasks : List Task) (d : String) :
    List (Task × NetworkBinding) :=
  tasks.flatMap fun t =>
    t.Containers.flatMap fun c =>
      if HasDomain w t c d then
        (c.NetworkBindings.filter (passesPortCheck cfg)).map fun p => (t, p)
      else []

/-- The endpoints of the discovery walk for domain `d`. -/
def discoveryWalk (w : World) (cfg : Config) (ips : IpMap) (tasks : List Task)
    (d : String) : List String :=
  (passingBindings w cfg tasks d).map fun tp => endpointOf ips tp.1 tp.2

/-- Host instance `i` is described, and the address query for its compute resource
answers with the public address `ip`. -/
def HostResolves (w : World) (cfg : Config) (i ip : String) : Prop :=
  ∃ ci cis r rs inst insts,
    w.DescribeContainerInstances cfg.cliCluster i = .ok (ci :: cis) ∧
    w.DescribeInstances ci.Ec2InstanceId = .ok (r :: rs) ∧
    r.Instances = inst :: insts ∧ inst.PublicIpAddress = some ip

/-- Host instance `i` is described, and the address query for its compute resource
fails. -/
def HostAddressFails (w : World) (cfg : Config) (i : String) : Prop :=
  ∃ ci cis err,
    w.DescribeContainerInstances cfg.cliCluster i = .ok (ci :: cis) ∧
    w.DescribeInstances ci.Ec2InstanceId = .error err

/-- The describe query for host instance `i` fails. -/
def HostDescribeFails (w : World) (cfg : Config) (i : String) : Prop :=
  ∃ err, w.DescribeContainerInstances cfg.cliCluster i = .error err

/-- All cluster queries of a pass succeed: the task listing, the batched task
description and the host listing answer with `tasks` and `hosts`, and every listed host
is described and has its public address resolved. -/
def QueriesSucceed (w : World) (cfg : Config) (tasks : List Task) (hosts : List String) :
    Prop :=
  (∃ arns, w.ListTasks cfg.cliCluster = .ok arns ∧
    w.DescribeTasks cfg.cliCluster arns = .ok tasks) ∧
  w.ListContainerInstances cfg.cliCluster = .ok hosts ∧
  ∀ i ∈ hosts, ∃ ip, HostResolves w cfg i ip

/-- Host instance `i` gets the address `ip` recorded: its public address, or the empty
string when the address query fails. -/
def HostAnswers (w : World) (cfg : Config) (i ip : String) : Prop :=
  HostResolves w cfg i ip ∨ (HostAddressFails w cfg i ∧ ip = "")

/-- The endpoints one container adds for domain `d`. -/
def containerWalk (w : World) (cfg : Config) (ips : IpMap) (t : Task) (c : Container)
    (d : String) : List String :=
  if HasDomain w t c d then
    (c.NetworkBindings.filter (passesPortCheck cfg)).map (endpointOf ips t)
  else []

/-- The keys of `list` are distinct and each is the domain of a container of `tasks`. -/
def KeysJustified (w : World) (tasks : List Task) (list : EndpointMap) : Prop :=
  (GoMap.keys list).Nodup ∧
  ∀ d ∈ GoMap.keys list, ∃ t ∈ tasks, ∃ c ∈ t.Containers, HasDomain w t c d

/-- The event is not a call to `marco.Send`. -/
def NotSend (e : Event) : Prop := ∀ b u, e ≠ .Send b u

/-- Container `c` of task `t` yields no `DOMAIN` value: the definition lookup fails, or
no definition with the container's name carries a `DOMAIN` entry, or the value found is
the empty string. -/
def NoDomainValue (w : World) (t : Task) (c : Container) : Prop :=
  (∃ err, w.DescribeTaskDefinition t.TaskDefinitionArn = .error err) ∨
  (∃ td, w.DescribeTaskDefinition t.TaskDefinitionArn = .ok td ∧
    ∀ cd ∈ td.ContainerDefinitions, cd.Name = c.Name →
      ∀ e ∈ cd.Environment, e.Name ≠ "DOMAIN") ∨
  (getContainerEnv w t.TaskDefinitionArn c.Name "DOMAIN").result = .ret ""

/-! ## Concrete clusters -/

/-- A cluster with one task of definition `web:1` on the one host `host/1`; `describe` is
the answer of the host's describe query and `address` that of the address query. -/
def clusterWorld (containers : List Container) (defs : List ContainerDefinition)
    (describe : Except GoError (List ContainerInstance))
    (address : Except GoError (List Reservation)) : World :=
  { ListTasks := fun _ => .ok ["task/1"]
    DescribeTasks := fun _ _ =>
      .ok [{ TaskDefinitionArn := "web:1", ContainerInstanceArn := "host/1",
             Containers := containers }]
    ListContainerInstances := fun _ => .ok ["host/1"]
    DescribeContainerInstances := fun _ _ => describe
    DescribeTaskDefinition := fun _ => .ok { ContainerDefinitions := defs }
    DescribeInstances := fun _ => address
    Send := fun _ _ => none
    rangeOrder := fun m => m
    rangeOrder_perm := fun m => List.Perm.refl m }

/-- A container definition with `DOMAIN=example.com`. -/
def domainDefinition (name : String) : ContainerDefinition :=
  { Name := name, Environment := [{ Name := "DOMAIN", Value := "example.com" }] }

/-- A running container with one binding. -/
def boundContainer (name : String) (containerPort hostPort : Int) : Container :=
  { Name := name,
    NetworkBindings := [{ ContainerPort := containerPort, HostPort := hostPort }] }

/-- The host is described, with compute resource `i-1`. -/
def describedHost : Except GoError (List ContainerInstance) :=
  .ok [{ Ec2InstanceId := "i-1" }]

/-- The compute resource has the public address `203.0.113.9`. -/
def publicAddress : Except GoError (List Reservation) :=
  .ok [{ Instances := [{ PublicIpAddress := some "203.0.113.9" }] }]

/-- The only task of `clusterWorld`. -/
def onlyTask (containers : List Container) : Task :=
  { TaskDefinitionArn := "web:1", ContainerInstanceArn := "host/1", Containers := containers }

/-- The end-to-end scenario of the specification: binding `80 -> 33000`. -/
def endToEndWorld : World :=
  clusterWorld [boundContainer "web" 80 33000] [domainDefinition "web"] describedHost
    publicAddress

/-- The same cluster with the container listening on port `23`. -/
def strayPortWorld : World :=
  clusterWorld [boundContainer "web" 23 33000] [domainDefinition "web"] describedHost
    publicAddress

/-- The same cluster when the describe query of the host fails. -/
def describeFailsWorld : World :=
  clusterWorld [boundContainer "web" 80 33000] [domainDefinition "web"]
    (.error "DescribeContainerInstances: request failed") publicAddress

/-- The same cluster when the address query of the host fails. -/
def addressFailsWorld : World :=
  clusterWorld [boundContainer "web" 80 33000] [domainDefinition "web"] describedHost
    (.error "DescribeInstances: request failed")

/-- The same cluster when the container's definition has an empty environment. -/
def emptyEnvironmentWorld : World :=
  clusterWorld [boundContainer "web" 80 33000] [{ Name := "web", Environment := [] }]
    describedHost publicAddress

/-- Two containers of the task declare the same domain and yield the same endpoint. -/
def twinWorld : World :=
  clusterWorld [boundContainer "web" 80 33000, boundContainer "api" 80 33000]
    [domainDefinition "web", domainDefinition "api"] describedHost publicAddress

/-- The task listing fails. -/
def listingFailsWorld : World :=
  { endToEndWorld with ListTasks := fun _ => .error "ListTasks: request failed" }

/-! ## Basic facts: computations -/

namespace Run

variable {α β σ : Type}

@[simp]
theorem result_ret (a : α) : (ret a).result = .ret a := rfl

@[simp]
theorem trace_ret (a : α) : (ret a : Run α).trace = [] := rfl

@[simp]
theorem result_pure (a : α) : (pure a : Run α).result = .ret a := rfl

@[simp]
theorem trace_pure (a : α) : (pure a : Run α).trace = [] := rfl

@[simp]
theorem result_crash : (crash : Run α).result = .crash := rfl

@[simp]
theorem result_emit (e : Event) (a : α) : (emit e a).result = .ret a := rfl

@[simp]
theorem trace_emit (e : Event) (a : α) : (emit e a).trace = [e] := rfl

@[simp]
theorem bind_eq_andThen (x : Run α) (f : α → Run β) : x >>= f = andThen x f := rfl

theorem andThen_of_ret {x : Run α} {a : α} (h : x.result = .ret a) (f : α → Run β) :
    (andThen x f).result = (f a).result ∧ (andThen x f).trace = x.trace ++ (f a).trace := by
  simp [andThen, h]

theorem andThen_of_crash {x : Run α} (h : x.result = .crash) (f : α → Run β) :
    (andThen x f).result = .crash ∧ (andThen x f).trace = x.trace := by
  simp [andThen, h]

theorem andThen_ret_inv {x : Run α} {f : α → Run β} {b : β}
    (h : (andThen x f).result = .ret b) :
    ∃ a, x.result = .ret a ∧ (f a).result = .ret b := by
  cases hx : x.result with
  | crash => simp [andThen, hx] at h
  | ret a => exact ⟨a, rfl, by simpa [andThen, hx] using h⟩

/-- Every event of a sequenced computation comes from one of its two parts. -/
theorem andThen_trace_all (P : Event → Prop) {x : Run α} {f : α → Run β}
    (hx : ∀ e ∈ x.trace, P e) (hf : ∀ a, ∀ e ∈ (f a).trace, P e) :
    ∀ e ∈ (andThen x f).trace, P e := by
  intro e he
  cases hr : x.result with
  | crash => exact hx e (by simpa [andThen, hr] using he)
  | ret a =>
    have : e ∈ x.trace ++ (f a).trace := by simpa [andThen, hr] using he
    rcases List.mem_append.mp this with h | h
    · exact hx e h
    · exact hf a e h

/-- A property of the loop state that every iteration keeps holds when the loop ends. -/
theorem forEach_inv (I : σ → Prop) (body : σ → α → Run σ) (xs : List α)
    (h : ∀ a ∈ xs, ∀ s s', I s → (body s a).result = .ret s' → I s') :
    ∀ s s', I s → (forEach body xs s).result = .ret s' → I s' := by
  induction xs with
  | nil =>
    intro s s' hs hr
    simp [forEach] at hr
    subst hr; exact hs
  | cons a as ih =>
    intro s s' hs hr
    obtain ⟨s1, h1, h2⟩ := andThen_ret_inv (by simpa [forEach] using hr)
    exact ih (fun b hb => h b (List.mem_cons_of_mem _ hb)) s1 s'
      (h a (List.mem_cons_self _ _) s s1 hs h1) h2

/-- Every event of a loop comes from one of its iterations. -/
theorem forEach_trace_all (P : Event → Prop) (body : σ → α → Run σ) (xs : List α)
    (h : ∀ a s, ∀ e ∈ (body s a).trace, P e) :
    ∀ s, ∀ e ∈ (forEach body xs s).trace, P e := by
  induction xs with
  | nil => intro s e he; simp [forEach] at he
  | cons a as ih =>
    intro s
    simpa [forEach] using andThen_trace_all P (h a s) (fun s' => ih s')

end Run

/-! ## Basic facts: maps -/

namespace GoMap

variable {V : Type}

theorem get_set_self (zero : V) (m : GoMap V) (k : String) (v : V) :
    get zero (set m k v) k = v := by
  induction m with
  | nil => simp [set, get]
  | cons kv m ih =>
    obtain ⟨k', v'⟩ := kv
    by_cases hk : k' = k <;> simp [set, get, hk, ih]

theorem get_set_other (zero : V) (m : GoMap V) (k k2 : String) (v : V) (h : k ≠ k2) :
    get zero (set m k v) k2 = get zero m k2 := by
  induction m with
  | nil => simp [set, get, h]
  | cons kv m ih =>
    obtain ⟨k', v'⟩ := kv
    by_cases hk : k' = k
    · subst hk; simp [set, get, h]
    · by_cases hk2 : k' = k2
      · have hk3 : ¬ k2 = k := fun hc => hk (hk2.trans hc)
        simp [set, get, hk2, hk3]
      · simp [set, get, hk, hk2, ih]

theorem mem_keys_set (m : GoMap V) (k : String) (v : V) (x : String) :
    x ∈ keys (set m k v) ↔ x ∈ keys m ∨ x = k := by
  induction m with
  | nil => simp [set, keys]
  | cons kv m ih =>
    obtain ⟨k', v'⟩ := kv
    by_cases hk : k' = k
    · subst hk
      simp only [set, keys, if_true, List.map_cons, List.mem_cons]
      tauto
    · simp only [keys] at ih
      simp [set, keys, hk, ih, or_assoc]

theorem nodup_keys_set (m : GoMap V) (k : String) (v : V) (h : (keys m).Nodup) :
    (keys (set m k v)).Nodup := by
  induction m with
  | nil => simp [set, keys]
  | cons kv m ih =>
    obtain ⟨k', v'⟩ := kv
    have h' : k' ∉ keys m ∧ (keys m).Nodup := by simpa [keys] using h
    by_cases hk : k' = k
    · subst hk; simpa [set, keys] using h
    · have hmem : k' ∉ keys (set m k v) := by
        rw [mem_keys_set]; exact fun hc => hc.elim h'.1 hk
      have := ih h'.2
      simp only [keys] at this hmem
      simp [set, keys, hk, this, hmem]

/-- Under distinct keys, the entries are exactly the keys with their values. -/
theorem get_of_mem (zero : V) (m : GoMap V) (h : (keys m).Nodup) (k : String) (v : V)
    (hm : (k, v) ∈ m) : get zero m k = v := by
  induction m with
  | nil => simp at hm
  | cons kv m ih =>
    obtain ⟨k', v'⟩ := kv
    have h' : k' ∉ keys m ∧ (keys m).Nodup := by simpa [keys] using h
    rcases List.mem_cons.mp hm with heq | hin
    · cases heq; simp [get]
    · have hne : k' ≠ k := by
        intro hk; subst hk
        exact h'.1 (List.mem_map.mpr ⟨(k', v), hin, rfl⟩)
      simp [get, hne, ih h'.2 hin]

end GoMap

/-! ## Basic facts: the port check -/

theorem startsWith_iff (s p : List Char) :
    startsWith s p = true ↔ ∃ post, s = p ++ post := by
  induction p generalizing s with
  | nil => simp [startsWith]
  | cons x xs ih =>
    cases s with
    | nil => simp [startsWith]
    | cons c cs =>
      simp only [startsWith, Bool.and_eq_true, decide_eq_true_eq, ih, List.cons_append,
        List.cons.injEq]
      constructor
      · rintro ⟨rfl, post, rfl⟩; exact ⟨post, rfl, rfl⟩
      · rintro ⟨post, rfl, rfl⟩; exact ⟨rfl, post, rfl⟩

theorem containsChars_iff (s sub : List Char) :
    containsChars s sub = true ↔ ∃ pre post, s = pre ++ sub ++ post := by
  induction s with
  | nil =>
    simp only [containsChars, startsWith_iff]
    constructor
    · rintro ⟨post, h⟩; exact ⟨[], post, by simpa using h⟩
    · rintro ⟨pre, post, h⟩
      have h' : pre ++ (sub ++ post) = [] := by simpa using h.symm
      have h2 := List.append_eq_nil.mp h'
      exact ⟨post, h2.2.symm⟩
  | cons c cs ih =>
    simp only [containsChars, Bool.or_eq_true, startsWith_iff, ih]
    constructor
    · rintro (⟨post, h⟩ | ⟨pre, post, h⟩)
      · exact ⟨[], post, by simpa using h⟩
      · exact ⟨c :: pre, post, by simp [h]⟩
    · rintro ⟨pre, post, h⟩
      cases pre with
      | nil => exact Or.inl ⟨post, by simpa using h⟩
      | cons x pre =>
        have h' : c = x ∧ cs = pre ++ (sub ++ post) := by simpa using h
        exact Or.inr ⟨pre, post, by simp [h'.2]⟩

/-- The test `strings.Contains` is containment of a contiguous run of characters. -/
theorem Contains_iff (s sub : String) : Contains s sub = true ↔ IsSubstring sub s := by
  simp [Contains, IsSubstring, containsChars_iff]

theorem splitComma_ne_nil (s : List Char) : splitComma s ≠ [] := by
  induction s with
  | nil => simp [splitComma]
  | cons c cs ih =>
    by_cases hc : c = ','
    · simp [splitComma, hc]
    · cases h : splitComma cs <;> simp [splitComma, hc, h]

/-- Every comma-separated item of `s` occurs in `s`; the first one starts it. -/
theorem splitComma_items (s : List Char) :
    (∀ x xs, splitComma s = x :: xs → ∃ post, s = x ++ post) ∧
    (∀ x ∈ splitComma s, ∃ pre post, s = pre ++ x ++ post) := by
  induction s with
  | nil =>
    constructor
    · intro x xs h
      simp [splitComma] at h
      exact ⟨[], by simp [h.1.symm]⟩
    · intro x hx
      simp [splitComma] at hx
      exact ⟨[], [], by simp [hx]⟩
  | cons c cs ih =>
    by_cases hc : c = ','
    · constructor
      · intro x xs h
        simp [splitComma, hc] at h
        exact ⟨c :: cs, by simp [h.1.symm]⟩
      · intro x hx
        simp only [splitComma, hc, if_true, List.mem_cons] at hx
        rcases hx with rfl | hx
        · exact ⟨[], c :: cs, by simp⟩
        · obtain ⟨pre, post, h⟩ := ih.2 x hx
          exact ⟨c :: pre, post, by simp [h]⟩
    · cases hs : splitComma cs with
      | nil => exact absurd hs (splitComma_ne_nil cs)
      | cons y ys =>
        obtain ⟨post0, h0⟩ := ih.1 y ys hs
        constructor
        · intro x xs h
          simp [splitComma, hc, hs] at h
          exact ⟨post0, by rw [← h.1]; simp [h0]⟩
        · intro x hx
          simp only [splitComma, hc, if_false, hs, List.mem_cons] at hx
          rcases hx with rfl | hx
          · exact ⟨[], post0, by simp [h0]⟩
          · obtain ⟨pre, post, h⟩ := ih.2 x (by rw [hs]; exact List.mem_cons_of_mem _ hx)
            exact ⟨c :: pre, post, by simp [h]⟩

/-- A port that is a member of the allow-list passes the textual check. -/
theorem contains_of_inAllowList (ports : String) (port : Int) (h : InAllowList ports port) :
    Contains ports (FormatInt port) = true := by
  unfold InAllowList allowListPorts at h
  obtain ⟨x, hx, hxe⟩ := List.mem_map.mp h
  obtain ⟨pre, post, hpp⟩ := (splitComma_items ports.data).2 x hx
  rw [Contains_iff]
  refine ⟨pre, post, ?_⟩
  rw [← hxe]; exact hpp

/-! ## Basic facts: the helpers -/

/-- The lookup `getContainerEnv` always returns: the empty string when the query fails,
the result of the search otherwise. -/
theorem getContainerEnv_result (w : World) (definition name key : String) :
    (getContainerEnv w definition name key).result =
      .ret (match w.DescribeTaskDefinition definition with
        | .error _ => ""
        | .ok out => searchDefinitions name key out.ContainerDefinitions) := by
  unfold getContainerEnv
  cases h : w.DescribeTaskDefinition definition <;>
    simp [Run.andThen, Run.emit, logInfo, h]

theorem getContainerEnv_total (w : World) (definition name key : String) :
    ∃ d, (getContainerEnv w definition name key).result = .ret d :=
  ⟨_, getContainerEnv_result w definition name key⟩

/-- No definition named `name` carries `key`: the search finds nothing. -/
theorem searchDefinitions_absent (name key : String) (defs : List ContainerDefinition)
    (h : ∀ cd ∈ defs, cd.Name = name → ∀ e ∈ cd.Environment, e.Name ≠ key) :
    searchDefinitions name key defs = "" := by
  induction defs with
  | nil => rfl
  | cons c cs ih =>
    have ihc := ih (fun cd hcd => h cd (List.mem_cons_of_mem _ hcd))
    by_cases hn : c.Name = name
    · have hnone : envLookup key c.Environment = none := by
        have hc := h c (List.mem_cons_self _ _) hn
        generalize c.Environment = env at hc
        induction env with
        | nil => rfl
        | cons e es ihe =>
          have he := hc e (List.mem_cons_self _ _)
          simp [envLookup, he, ihe (fun e' he' => hc e' (List.mem_cons_of_mem _ he'))]
      simp [searchDefinitions, hn, hnone, ihc]
    · simp [searchDefinitions, hn, ihc]

theorem bindingStep_result (cfg : Config) (ips : IpMap) (t : Task) (domain : String)
    (list : EndpointMap) (p : NetworkBinding) :
    (bindingStep cfg ips t domain list p).result =
      .ret (if passesPortCheck cfg p then
          GoMap.set list domain (list.at domain ++ [endpointOf ips t p])
        else list) := by
  unfold bindingStep passesPortCheck endpointOf
  cases h : Contains cfg.cliPorts (FormatInt p.ContainerPort) <;> simp [h]

theorem bindingStep_trace (cfg : Config) (ips : IpMap) (t : Task) (domain : String)
    (list : EndpointMap) (p : NetworkBinding) :
    (bindingStep cfg ips t domain list p).trace = [] := by
  unfold bindingStep
  cases h : Contains cfg.cliPorts (FormatInt p.ContainerPort) <;> simp [h]

/-! ## The loop over tasks: what it adds -/

theorem at_set_self (m : EndpointMap) (k : String) (v : List String) :
    EndpointMap.at (GoMap.set m k v) k = v :=
  GoMap.get_set_self [] m k v

theorem at_set_other (m : EndpointMap) (k k2 : String) (v : List String) (h : k ≠ k2) :
    EndpointMap.at (GoMap.set m k v) k2 = EndpointMap.at m k2 :=
  GoMap.get_set_other [] m k k2 v h

/-- A loop whose iterations all return, each appending `contrib a d` to the entry of
every `d`, returns and appends the contributions in order. -/
theorem forEach_appends {α : Type} (body : EndpointMap → α → Run EndpointMap)
    (contrib : α → String → List String) (xs : List α)
    (h : ∀ a ∈ xs, ∀ s, ∃ s', (body s a).result = .ret s' ∧
      ∀ d, s'.at d = s.at d ++ contrib a d) :
    ∀ s, ∃ s', (Run.forEach body xs s).result = .ret s' ∧
      ∀ d, s'.at d = s.at d ++ xs.flatMap (fun a => contrib a d) := by
  induction xs with
  | nil => intro s; exact ⟨s, rfl, by simp⟩
  | cons a as ih =>
    intro s
    obtain ⟨s1, h1, h1d⟩ := h a (List.mem_cons_self _ _) s
    obtain ⟨s2, h2, h2d⟩ := ih (fun b hb => h b (List.mem_cons_of_mem _ hb)) s1
    refine ⟨s2, ?_, ?_⟩
    · simp only [Run.forEach]
      rw [(Run.andThen_of_ret h1 _).1]; exact h2
    · intro d
      rw [h2d d, h1d d]; simp

theorem bindingsLoop_spec (cfg : Config) (ips : IpMap) (t : Task) (domain : String)
    (bs : List NetworkBinding) :
    ∀ list, ∃ list', (Run.forEach (bindingStep cfg ips t domain) bs list).result = .ret list' ∧
      ∀ d, list'.at d = list.at d ++
        (if d = domain then (bs.filter (passesPortCheck cfg)).map (endpointOf ips t)
         else []) := by
  induction bs with
  | nil => intro list; exact ⟨list, rfl, by intro d; split <;> simp⟩
  | cons p ps ih =>
    intro list
    have h1 := bindingStep_result cfg ips t domain list p
    obtain ⟨l2, h2, h2d⟩ := ih (if passesPortCheck cfg p then
          GoMap.set list domain (list.at domain ++ [endpointOf ips t p]) else list)
    refine ⟨l2, ?_, ?_⟩
    · simp only [Run.forEach]
      rw [(Run.andThen_of_ret h1 _).1]; exact h2
    · intro d
      rw [h2d d]
      by_cases hp : passesPortCheck cfg p = true
      · by_cases hd : d = domain
        · subst hd; simp [hp, at_set_self]
        · simp [hp, hd, at_set_other _ _ _ _ (Ne.symm hd)]
      · by_cases hd : d = domain <;> simp [hp, hd]

theorem containerStep_spec (w : World) (cfg : Config) (ips : IpMap) (t : Task)
    (c : Container) (list : EndpointMap) :
    ∃ list', (containerStep w cfg ips t list c).result = .ret list' ∧
      ∀ d, list'.at d = list.at d ++ containerWalk w cfg ips t c d := by
  obtain ⟨domain, hdom⟩ := getContainerEnv_total w t.TaskDefinitionArn c.Name "DOMAIN"
  have hstep : (containerStep w cfg ips t list c).result =
      (if domain = "" then (pure list : Run EndpointMap)
        else Run.forEach (bindingStep cfg ips t domain) c.NetworkBindings list).result := by
    unfold containerStep
    exact (Run.andThen_of_ret hdom _).1
  by_cases he : domain = ""
  · refine ⟨list, by rw [hstep]; simp [he], ?_⟩
    intro d
    have : ¬ HasDomain w t c d := by
      rintro ⟨h1, h2⟩
      rw [hdom] at h1
      cases h1; exact h2 he
    simp [containerWalk, this]
  · obtain ⟨l2, h2, h2d⟩ := bindingsLoop_spec cfg ips t domain c.NetworkBindings list
    refine ⟨l2, by rw [hstep]; simpa [he] using h2, ?_⟩
    intro d
    rw [h2d d]
    by_cases hd : d = domain
    · subst hd
      have : HasDomain w t c d := ⟨hdom, he⟩
      simp [containerWalk, this]
    · have : ¬ HasDomain w t c d := by
        rintro ⟨h1, _⟩
        rw [hdom] at h1
        cases h1; exact hd rfl
      simp [containerWalk, this, hd]

theorem discoveryWalk_eq (w : World) (cfg : Config) (ips : IpMap) (tasks : List Task)
    (d : String) :
    discoveryWalk w cfg ips tasks d =
      tasks.flatMap (fun t => t.Containers.flatMap (fun c => containerWalk w cfg ips t c d)) := by
  unfold discoveryWalk passingBindings
  induction tasks with
  | nil => rfl
  | cons t ts ih =>
    simp only [List.flatMap_cons, List.map_append, ih]
    congr 1
    generalize t.Containers = cs
    induction cs with
    | nil => rfl
    | cons c cs ihc =>
      simp only [List.flatMap_cons, List.map_append, ihc]
      congr 1
      unfold containerWalk
      split <;> simp [List.map_map, Function.comp_def]

/-- The loop over the described tasks always returns, and the entry of every domain grows
by the discovery walk. -/
theorem tasksLoop_spec (w : World) (cfg : Config) (ips : IpMap) (tasks : List Task)
    (list : EndpointMap) :
    ∃ list', (Run.forEach (taskStep w cfg ips) tasks list).result = .ret list' ∧
      ∀ d, list'.at d = list.at d ++ discoveryWalk w cfg ips tasks d := by
  have h := forEach_appends (taskStep w cfg ips)
    (fun t d => t.Containers.flatMap (fun c => containerWalk w cfg ips t c d)) tasks
    (fun t _ s => forEach_appends (containerStep w cfg ips t)
      (fun c d => containerWalk w cfg ips t c d) t.Containers
      (fun c _ s' => containerStep_spec w cfg ips t c s') s) list
  obtain ⟨l, hl, hd⟩ := h
  exact ⟨l, hl, fun d => by rw [hd d, discoveryWalk_eq]⟩

/-! ## The loop over tasks: what it keeps -/

theorem bindingStep_keeps (w : World) (cfg : Config) (ips : IpMap) (tasks : List Task)
    (t : Task) (c : Container) (domain : String) (ht : t ∈ tasks) (hc : c ∈ t.Containers)
    (hd : HasDomain w t c domain) (p : NetworkBinding) (list list' : EndpointMap)
    (hI : KeysJustified w tasks list)
    (hr : (bindingStep cfg ips t domain list p).result = .ret list') :
    KeysJustified w tasks list' := by
  rw [bindingStep_result] at hr
  by_cases hp : passesPortCheck cfg p = true
  · simp only [hp, if_true, Outcome.ret.injEq] at hr
    subst hr
    refine ⟨GoMap.nodup_keys_set _ _ _ hI.1, ?_⟩
    intro d hdk
    rcases (GoMap.mem_keys_set _ _ _ _).mp hdk with h | h
    · exact hI.2 d h
    · subst h; exact ⟨t, ht, c, hc, hd⟩
  · simp only [hp, Outcome.ret.injEq] at hr
    simp only [Bool.false_eq_true, if_false] at hr
    subst hr; exact hI

theorem containerStep_keeps (w : World) (cfg : Config) (ips : IpMap) (tasks : List Task)
    (t : Task) (c : Container) (ht : t ∈ tasks) (hc : c ∈ t.Containers)
    (list list' : EndpointMap) (hI : KeysJustified w tasks list)
    (hr : (containerStep w cfg ips t list c).result = .ret list') :
    KeysJustified w tasks list' := by
  unfold containerStep at hr
  obtain ⟨domain, hdom, hrest⟩ := Run.andThen_ret_inv hr
  by_cases he : domain = ""
  · simp only [he, if_true, Run.result_pure, Outcome.ret.injEq] at hrest
    subst hrest; exact hI
  · simp only [he, if_false] at hrest
    exact Run.forEach_inv (KeysJustified w tasks) _ c.NetworkBindings
      (fun p _ s s' hs hs' =>
        bindingStep_keeps w cfg ips tasks t c domain ht hc ⟨hdom, he⟩ p s s' hs hs')
      list list' hI hrest

theorem tasksLoop_keeps (w : World) (cfg : Config) (ips : IpMap) (tasks : List Task)
    (list list' : EndpointMap) (hI : KeysJustified w tasks list)
    (hr : (Run.forEach (taskStep w cfg ips) tasks list).result = .ret list') :
    KeysJustified w tasks list' :=
  Run.forEach_inv (KeysJustified w tasks) _ tasks
    (fun t ht s s' hs hs' =>
      Run.forEach_inv (KeysJustified w tasks) _ t.Containers
        (fun c hc s1 s2 h1 h2 => containerStep_keeps w cfg ips tasks t c ht hc s1 s2 h1 h2)
        s s' hs hs')
    list list' hI hr

theorem keysJustified_nil (w : World) (tasks : List Task) : KeysJustified w tasks [] :=
  ⟨by simp [GoMap.keys], by simp [GoMap.keys]⟩

/-! ## The loop over host instances -/

theorem hostStep_of_resolves (w : World) (cfg : Config) (ips : IpMap) (i ip : String)
    (h : HostResolves w cfg i ip) :
    (hostStep w cfg ips i).result = .ret (GoMap.set ips i ip) := by
  obtain ⟨ci, cis, r, rs, inst, insts, h1, h2, h3, h4⟩ := h
  simp [hostStep, getContainerInstance, getEc2IP, Run.andThen, Run.emit, h1, h2, h3, h4]

theorem hostStep_of_addressFails (w : World) (cfg : Config) (ips : IpMap) (i : String)
    (h : HostAddressFails w cfg i) :
    (hostStep w cfg ips i).result = .ret (GoMap.set ips i "") := by
  obtain ⟨ci, cis, err, h1, h2⟩ := h
  simp [hostStep, getContainerInstance, getEc2IP, Run.andThen, Run.emit, logInfo, h1, h2]

theorem hostStep_of_describeFails (w : World) (cfg : Config) (ips : IpMap) (i : String)
    (h : HostDescribeFails w cfg i) :
    (hostStep w cfg ips i).result = .crash := by
  obtain ⟨err, h1⟩ := h
  simp [hostStep, getContainerInstance, Run.andThen, Run.emit, Run.crash, logInfo, h1]

theorem hostStep_of_answers (w : World) (cfg : Config) (ips : IpMap) (i ip : String)
    (h : HostAnswers w cfg i ip) :
    (hostStep w cfg ips i).result = .ret (GoMap.set ips i ip) := by
  rcases h with h | ⟨h, rfl⟩
  · exact hostStep_of_resolves w cfg ips i ip h
  · exact hostStep_of_addressFails w cfg ips i h

/-- The address recorded for a host is determined by the snapshots. -/
theorem hostAnswers_unique (w : World) (cfg : Config) (i ip ip2 : String)
    (h : HostAnswers w cfg i ip) (h2 : HostAnswers w cfg i ip2) : ip = ip2 := by
  have e1 := hostStep_of_answers w cfg [] i ip h
  have e2 := hostStep_of_answers w cfg [] i ip2 h2
  rw [e1] at e2
  simpa [GoMap.set] using e2

theorem ipAt_set_self (m : IpMap) (k v : String) : IpMap.at (GoMap.set m k v) k = v :=
  GoMap.get_set_self "" m k v

theorem ipAt_set_other (m : IpMap) (k k2 v : String) (h : k ≠ k2) :
    IpMap.at (GoMap.set m k v) k2 = IpMap.at m k2 :=
  GoMap.get_set_other "" m k k2 v h

/-- When every listed host gets an address recorded, the loop returns a lookup that holds
that address for each listed host and leaves every other identifier as it was. -/
theorem hostsLoop_spec (w : World) (cfg : Config) (hosts : List String)
    (h : ∀ i ∈ hosts, ∃ ip, HostAnswers w cfg i ip) :
    ∀ ips0, ∃ ips, (Run.forEach (hostStep w cfg) hosts ips0).result = .ret ips ∧
      (∀ a, a ∉ hosts → ips.at a = ips0.at a) ∧
      (∀ a ∈ hosts, ∀ ip, HostAnswers w cfg a ip → ips.at a = ip) := by
  induction hosts with
  | nil => intro ips0; exact ⟨ips0, rfl, fun _ _ => rfl, fun a ha => by simp at ha⟩
  | cons i is ih =>
    intro ips0
    obtain ⟨ipi, hipi⟩ := h i (List.mem_cons_self _ _)
    have h1 := hostStep_of_answers w cfg ips0 i ipi hipi
    obtain ⟨ips, hr, hout, hin⟩ :=
      ih (fun j hj => h j (List.mem_cons_of_mem _ hj)) (GoMap.set ips0 i ipi)
    refine ⟨ips, ?_, ?_, ?_⟩
    · simp only [Run.forEach]
      rw [(Run.andThen_of_ret h1 _).1]; exact hr
    · intro a ha
      have hai : i ≠ a := fun hc => ha (by rw [hc]; exact List.mem_cons_self _ _)
      have hais : a ∉ is := fun hc => ha (List.mem_cons_of_mem _ hc)
      rw [hout a hais, ipAt_set_other _ _ _ _ hai]
    · intro a ha ip hip
      by_cases hais : a ∈ is
      · exact hin a hais ip hip
      · have hai : a = i := by
          rcases List.mem_cons.mp ha with h' | h'
          · exact h'
          · exact absurd h' hais
        subst hai
        rw [hout a hais, ipAt_set_self]
        exact hostAnswers_unique w cfg a ipi ip hipi hip

/-! ## `getList` as a whole -/

/-- When the three listing queries answer and every listed host gets an address recorded,
`getList` returns, without error, a mapping with distinct, justified keys whose entries
are the discovery walk over the lookup the host loop built. -/
theorem getList_spec (w : World) (cfg : Config) (arns : List String) (tasks : List Task)
    (hosts : List String)
    (hT : w.ListTasks cfg.cliCluster = .ok arns)
    (hD : w.DescribeTasks cfg.cliCluster arns = .ok tasks)
    (hI : w.ListContainerInstances cfg.cliCluster = .ok hosts)
    (hH : ∀ i ∈ hosts, ∃ ip, HostAnswers w cfg i ip) :
    ∃ ips list, (resolveHosts w cfg hosts).result = .ret ips ∧
      (getList w cfg).result = .ret (list, none) ∧
      (∀ a, a ∉ hosts → ips.at a = "") ∧
      (∀ a ∈ hosts, ∀ ip, HostAnswers w cfg a ip → ips.at a = ip) ∧
      (∀ d, list.at d = discoveryWalk w cfg ips tasks d) ∧
      KeysJustified w tasks list := by
  obtain ⟨ips, hips, hout, hin⟩ := hostsLoop_spec w cfg hosts hH []
  obtain ⟨list, hlist, hwalk⟩ := tasksLoop_spec w cfg ips tasks []
  refine ⟨ips, list, hips, ?_, ?_, hin, ?_, ?_⟩
  · have hips' : (resolveHosts w cfg hosts).result = .ret ips := hips
    simp [getList, Run.andThen, Run.emit, hT, hD, hI, hips', hlist]
  · intro a ha; rw [hout a ha]; rfl
  · intro d; rw [hwalk d]; simp [EndpointMap.at, GoMap.get]
  · exact tasksLoop_keeps w cfg ips tasks [] list (keysJustified_nil w tasks) hlist

/-- Whatever the snapshots, a mapping that `getList` returns is empty when it comes with
an error, and otherwise has distinct keys, each the domain of a container of a described
task. -/
theorem getList_returns (w : World) (cfg : Config) (list : EndpointMap)
    (err : Option GoError) (h : (getList w cfg).result = .ret (list, err)) :
    (err ≠ none → list = []) ∧
    (list = [] ∨ ∃ arns tasks, w.ListTasks cfg.cliCluster = .ok arns ∧
        w.DescribeTasks cfg.cliCluster arns = .ok tasks ∧ KeysJustified w tasks list) := by
  unfold getList at h
  cases hT : w.ListTasks cfg.cliCluster with
  | error e =>
    simp [Run.andThen, Run.emit, hT] at h
    exact ⟨fun _ => h.1, Or.inl h.1⟩
  | ok arns =>
    cases hD : w.DescribeTasks cfg.cliCluster arns with
    | error e =>
      simp [Run.andThen, Run.emit, hT, hD] at h
      exact ⟨fun _ => h.1, Or.inl h.1⟩
    | ok tasks =>
      cases hI : w.ListContainerInstances cfg.cliCluster with
      | error e =>
        simp [Run.andThen, Run.emit, hT, hD, hI] at h
        exact ⟨fun _ => h.1, Or.inl h.1⟩
      | ok hosts =>
        cases hR : (resolveHosts w cfg hosts).result with
        | crash => simp [Run.andThen, Run.emit, hT, hD, hI, hR] at h
        | ret ips =>
          obtain ⟨l, hl, _⟩ := tasksLoop_spec w cfg ips tasks []
          simp [Run.andThen, Run.emit, hT, hD, hI, hR, hl] at h
          refine ⟨fun he => absurd h.2.symm he, Or.inr ⟨arns, tasks, rfl, hD, ?_⟩⟩
          rw [← h.1]
          exact tasksLoop_keeps w cfg ips tasks [] l (keysJustified_nil w tasks) hl

theorem keys_nodup_of_getList (w : World) (cfg : Config) (list : EndpointMap)
    (err : Option GoError) (h : (getList w cfg).result = .ret (list, err)) :
    (GoMap.keys list).Nodup := by
  rcases (getList_returns w cfg list err h).2 with h0 | ⟨_, _, _, _, hk⟩
  · subst h0; simp [GoMap.keys]
  · exact hk.1

/-- A loop crashes when one of its elements makes the body crash in every state. -/
theorem forEach_crash {σ α : Type} (body : σ → α → Run σ) (xs : List α) (a : α)
    (ha : a ∈ xs) (hc : ∀ s, (body s a).result = .crash) :
    ∀ s, (Run.forEach body xs s).result = .crash := by
  induction xs with
  | nil => simp at ha
  | cons x xs ih =>
    intro s
    simp only [Run.forEach]
    cases hx : (body s x).result with
    | crash => exact (Run.andThen_of_crash hx _).1
    | ret s1 =>
      rw [(Run.andThen_of_ret hx _).1]
      rcases List.mem_cons.mp ha with h | h
      · subst h; rw [hc s] at hx; cases hx
      · exact ih h s1

/-- When a listed host's describe query fails, `getList` crashes. -/
theorem getList_crash_of_describeFails (w : World) (cfg : Config) (arns : List String)
    (tasks : List Task) (hosts : List String)
    (hT : w.ListTasks cfg.cliCluster = .ok arns)
    (hD : w.DescribeTasks cfg.cliCluster arns = .ok tasks)
    (hI : w.ListContainerInstances cfg.cliCluster = .ok hosts)
    (i : String) (hi : i ∈ hosts) (hf : HostDescribeFails w cfg i) :
    (getList w cfg).result = .crash := by
  have hR : (resolveHosts w cfg hosts).result = .crash :=
    forEach_crash (hostStep w cfg) hosts i hi
      (fun s => hostStep_of_describeFails w cfg s i hf) []
  simp [getList, Run.andThen, Run.emit, hT, hD, hI, hR]

/-! ## What a pass sends -/

theorem sentPayloads_of_notSend (tr : List Event) (h : ∀ e ∈ tr, NotSend e) :
    sentPayloads tr = [] := by
  induction tr with
  | nil => rfl
  | cons e es ih =>
    have he := h e (List.mem_cons_self _ _)
    have hes := ih (fun x hx => h x (List.mem_cons_of_mem _ hx))
    cases e <;> simp_all [sentPayloads, NotSend]

theorem sentPayloads_append (t1 t2 : List Event) :
    sentPayloads (t1 ++ t2) = sentPayloads t1 ++ sentPayloads t2 := by
  induction t1 with
  | nil => rfl
  | cons e es ih => cases e <;> simp [sentPayloads, ih]

theorem getContainerEnv_notSend (w : World) (definition name key : String) :
    ∀ e ∈ (getContainerEnv w definition name key).trace, NotSend e := by
  unfold getContainerEnv
  cases h : w.DescribeTaskDefinition definition <;>
    simp [Run.andThen, Run.emit, logInfo, h, NotSend]

theorem hostStep_notSend (w : World) (cfg : Config) (ips : IpMap) (i : String) :
    ∀ e ∈ (hostStep w cfg ips i).trace, NotSend e := by
  unfold hostStep
  refine Run.andThen_trace_all NotSend ?_ ?_
  · unfold getContainerInstance
    cases h : w.DescribeContainerInstances cfg.cliCluster i with
    | error e => simp [Run.andThen, Run.emit, logInfo, h, NotSend]
    | ok cis => cases cis <;> simp [Run.andThen, Run.emit, Run.crash, h, NotSend]
  · intro ci
    cases ci with
    | none => simp [Run.crash]
    | some ci =>
      refine Run.andThen_trace_all NotSend ?_ (fun ip => by simp)
      unfold getEc2IP
      cases h : w.DescribeInstances ci.Ec2InstanceId with
      | error e => simp [Run.andThen, Run.emit, logInfo, h, NotSend]
      | ok rs =>
        cases rs with
        | nil => simp [Run.andThen, Run.emit, Run.crash, h, NotSend]
        | cons r rs =>
          cases hi : r.Instances with
          | nil => simp [Run.andThen, Run.emit, Run.crash, h, hi, NotSend]
          | cons inst insts =>
            cases hp : inst.PublicIpAddress <;>
              simp [Run.andThen, Run.emit, Run.crash, h, hi, hp, NotSend]

theorem containerStep_notSend (w : World) (cfg : Config) (ips : IpMap) (t : Task)
    (list : EndpointMap) (c : Container) :
    ∀ e ∈ (containerStep w cfg ips t list c).trace, NotSend e := by
  unfold containerStep
  refine Run.andThen_trace_all NotSend (getContainerEnv_notSend _ _ _ _) ?_
  intro domain
  by_cases hd : domain = ""
  · simp [hd]
  · simp only [hd, if_false]
    exact Run.forEach_trace_all NotSend _ _
      (fun p s e he => by simp [bindingStep_trace] at he) list

theorem getList_notSend (w : World) (cfg : Config) :
    ∀ e ∈ (getList w cfg).trace, NotSend e := by
  unfold getList
  refine Run.andThen_trace_all NotSend (by simp [NotSend]) ?_
  intro r1
  cases r1 with
  | error e => simp
  | ok arns =>
    refine Run.andThen_trace_all NotSend (by simp [NotSend]) ?_
    intro r2
    cases r2 with
    | error e => simp
    | ok tasks =>
      refine Run.andThen_trace_all NotSend (by simp [NotSend]) ?_
      intro r3
      cases r3 with
      | error e => simp
      | ok hosts =>
        refine Run.andThen_trace_all NotSend ?_ ?_
        · exact Run.forEach_trace_all NotSend _ _ (fun i s => hostStep_notSend w cfg s i) []
        · intro ips
          refine Run.andThen_trace_all NotSend ?_ (fun l => by simp)
          exact Run.forEach_trace_all NotSend _ _
            (fun t s => Run.forEach_trace_all NotSend _ _
              (fun c s' => containerStep_notSend w cfg ips t s' c) s) []

theorem foldl_toBackend (l : List (String × List String)) (acc : List Backend) :
    l.foldl (fun b dl => b ++ [toBackend dl]) acc = acc ++ l.map toBackend := by
  induction l generalizing acc with
  | nil => simp
  | cons x xs ih => simp [ih]

/-- What `Push` sends after `getList` returned: nothing on an error, and otherwise one
payload, the records of the mapping in the order `range` visits it. -/
theorem push_sent (w : World) (cfg : Config) (m : String) (list : EndpointMap)
    (err : Option GoError) (h : (getList w cfg).result = .ret (list, err)) :
    sentPayloads (Push w cfg m).trace =
      match err with
      | some _ => []
      | none => [(w.rangeOrder list).map toBackend] := by
  have h0 := sentPayloads_of_notSend _ (getList_notSend w cfg)
  unfold Push
  simp only [Run.bind_eq_andThen]
  rw [(Run.andThen_of_ret h _).2, sentPayloads_append, h0]
  cases err with
  | some e => simp [logInfo, Run.emit, sentPayloads]
  | none =>
    cases hs : w.Send (List.foldl (fun b dl => b ++ [toBackend dl]) [] (w.rangeOrder list))
        cfg.cliMarco <;>
      simp [logInfo, Run.emit, Run.andThen, sentPayloads, foldl_toBackend, hs]

/-! ## Membership in the discovery walk -/

theorem mem_discoveryWalk (w : World) (cfg : Config) (ips : IpMap) (tasks : List Task)
    (t : Task) (ht : t ∈ tasks) (c : Container) (hc : c ∈ t.Containers) (d : String)
    (hd : HasDomain w t c d) (p : NetworkBinding) (hp : p ∈ c.NetworkBindings)
    (hpass : passesPortCheck cfg p = true) :
    endpointOf ips t p ∈ discoveryWalk w cfg ips tasks d := by
  rw [discoveryWalk_eq]
  refine List.mem_flatMap.mpr ⟨t, ht, List.mem_flatMap.mpr ⟨c, hc, ?_⟩⟩
  simp only [containerWalk, hd, if_true]
  exact List.mem_map.mpr ⟨p, List.mem_filter.mpr ⟨hp, hpass⟩, rfl⟩

theorem hostAnswers_of_queriesSucceed (w : World) (cfg : Config) (tasks : List Task)
    (hosts : List String) (hq : QueriesSucceed w cfg tasks hosts) :
    ∀ i ∈ hosts, ∃ ip, HostAnswers w cfg i ip := by
  intro i hi
  obtain ⟨ip, hip⟩ := hq.2.2 i hi
  exact ⟨ip, Or.inl hip⟩

/-! ## The claims -/

/-- C1: when all cluster queries succeed, `getList` returns without error a mapping in
which, for every task `t`, every container of `t` whose resolved `DOMAIN` value `d` is not
empty and every binding `p` of it whose container-side port is in the allow-list, the
entry of `d` contains `"http://" ++ ips[t.ContainerInstanceArn] ++ ":" ++` the decimal
numeral of `p.HostPort`, where `ips` is the lookup built by the host loop, holding the
resolved address of every listed host.  In the end-to-end scenario, under every allow-list
that includes `80`, the result is exactly `{"example.com": ["http://203.0.113.9:33000"]}`. -/
theorem getList_endpoint_of_allowed_binding (w : World) (cfg : Config) (tasks : List Task)
    (hosts : List String) (hq : QueriesSucceed w cfg tasks hosts) :
    (∃ ips list, (resolveHosts w cfg hosts).result = .ret ips ∧
      (∀ i ∈ hosts, ∀ ip, HostResolves w cfg i ip → ips.at i = ip) ∧
      (getList w cfg).result = .ret (list, none) ∧
      ∀ t ∈ tasks, ∀ c ∈ t.Containers, ∀ d,
        (getContainerEnv w t.TaskDefinitionArn c.Name "DOMAIN").result = .ret d → d ≠ "" →
        ∀ p ∈ c.NetworkBindings, InAllowList cfg.cliPorts p.ContainerPort →
          "http://" ++ ips.at t.ContainerInstanceArn ++ ":" ++ FormatInt p.HostPort
            ∈ list.at d) ∧
    (∀ cfg2 : Config, InAllowList cfg2.cliPorts 80 →
      (getList endToEndWorld cfg2).result =
        .ret ([("example.com", ["http://203.0.113.9:33000"])], none)) := by
  constructor
  · obtain ⟨⟨arns, hT, hD⟩, hI, _⟩ := hq
    obtain ⟨ips, list, hR, hL, _, hin, hwalk, _⟩ :=
      getList_spec w cfg arns tasks hosts hT hD hI
        (hostAnswers_of_queriesSucceed w cfg tasks hosts ⟨⟨arns, hT, hD⟩, hI, by assumption⟩)
    refine ⟨ips, list, hR, fun i hi ip hip => hin i hi ip (Or.inl hip), hL, ?_⟩
    intro t ht c hc d hd hne p hp hallow
    rw [hwalk d]
    exact mem_discoveryWalk w cfg ips tasks t ht c hc d ⟨hd, hne⟩ p hp
      (contains_of_inAllowList _ _ hallow)
  · intro cfg2 h
    have hc := contains_of_inAllowList _ _ h
    have h2 : FormatInt 33000 = "33000" := by decide
    simp [getList, resolveHosts, Run.forEach, hostStep, getContainerInstance, getEc2IP,
      taskStep, containerStep, getContainerEnv, bindingStep, Run.andThen, Run.emit,
      endToEndWorld, clusterWorld, describedHost, publicAddress, boundContainer,
      domainDefinition, searchDefinitions, envLookup, hc, h2, GoMap.set, EndpointMap.at,
      IpMap.at, GoMap.get]

theorem endToEnd_queriesSucceed :
    QueriesSucceed endToEndWorld defaultConfig [onlyTask [boundContainer "web" 80 33000]]
      ["host/1"] := by
  refine ⟨⟨["task/1"], rfl, rfl⟩, rfl, ?_⟩
  intro i _
  exact ⟨"203.0.113.9", ⟨_, _, _, _, _, _, rfl, rfl, rfl, rfl⟩⟩

/-- C1, at the end-to-end scenario: the queries succeed and the entry of `example.com`
contains the endpoint of the binding `80 -> 33000`. -/
theorem getList_endpoint_of_allowed_binding_witness :
    QueriesSucceed endToEndWorld defaultConfig [onlyTask [boundContainer "web" 80 33000]]
      ["host/1"] ∧
    (getList endToEndWorld defaultConfig).result =
      .ret ([("example.com", ["http://203.0.113.9:33000"])], none) :=
  ⟨endToEnd_queriesSucceed,
    (getList_endpoint_of_allowed_binding endToEndWorld defaultConfig
      [onlyTask [boundContainer "web" 80 33000]] ["host/1"] endToEnd_queriesSucceed).2
      defaultConfig (by decide)⟩

/-- C2, at the failing input: under the default allow-list `80,8080,2368,8983` the port
`23` is none of the comma-separated ports, and yet `getList` emits an endpoint for a
binding whose container-side port is `23`. -/
theorem getList_emits_for_port_outside_allowList :
    ¬ InAllowList defaultConfig.cliPorts 23 ∧
    (getList strayPortWorld defaultConfig).result =
      .ret ([("example.com", ["http://203.0.113.9:33000"])], none) :=
  ⟨by decide, by decide⟩

/-- C3: a container that yields no `DOMAIN` value (the definition lookup fails, or
no container definition with its name carries a `DOMAIN` entry, or the value is the empty
string) resolves to the empty domain, and its iteration of the container loop returns the mapping
unchanged, whatever its bindings, the lookup of addresses and the allow-list are; it
adds nothing to the discovery walk of any domain. -/
theorem containerStep_without_domain (w : World) (cfg : Config) (ips : IpMap) (t : Task)
    (c : Container) (list : EndpointMap) (h : NoDomainValue w t c) :
    (getContainerEnv w t.TaskDefinitionArn c.Name "DOMAIN").result = .ret "" ∧
    (containerStep w cfg ips t list c).result = .ret list ∧
    ∀ d, containerWalk w cfg ips t c d = [] := by
  have hempty : (getContainerEnv w t.TaskDefinitionArn c.Name "DOMAIN").result = .ret "" := by
    rcases h with ⟨err, he⟩ | ⟨td, htd, hno⟩ | h3
    · rw [getContainerEnv_result, he]
    · rw [getContainerEnv_result, htd]
      simp [searchDefinitions_absent c.Name "DOMAIN" td.ContainerDefinitions hno]
    · exact h3
  refine ⟨hempty, ?_, ?_⟩
  · unfold containerStep
    simp only [Run.bind_eq_andThen]
    rw [(Run.andThen_of_ret hempty _).1]
    simp
  · intro d
    have : ¬ HasDomain w t c d := by
      rintro ⟨h1, h2⟩
      rw [hempty] at h1
      cases h1; exact h2 rfl
    simp [containerWalk, this]

/-- C3, at a container whose definition has an empty environment: it contributes zero
entries. -/
theorem containerStep_without_domain_witness :
    NoDomainValue emptyEnvironmentWorld (onlyTask [boundContainer "web" 80 33000])
      (boundContainer "web" 80 33000) ∧
    (containerStep emptyEnvironmentWorld defaultConfig [("host/1", "203.0.113.9")]
      (onlyTask [boundContainer "web" 80 33000]) [] (boundContainer "web" 80 33000)).result
      = .ret [] :=
  have h : NoDomainValue emptyEnvironmentWorld (onlyTask [boundContainer "web" 80 33000])
      (boundContainer "web" 80 33000) :=
    Or.inr (Or.inl ⟨{ ContainerDefinitions := [{ Name := "web", Environment := [] }] }, rfl,
      by simp⟩)
  ⟨h, (containerStep_without_domain emptyEnvironmentWorld defaultConfig
    [("host/1", "203.0.113.9")] (onlyTask [boundContainer "web" 80 33000])
    (boundContainer "web" 80 33000) [] h).2.1⟩

/-- C4: when `ListTasks` fails, `getList` returns the empty mapping together with the
listing error, and the pass performs the listing call only: no call to the EC2 address
query. -/
theorem getList_listTasks_error (w : World) (cfg : Config) (err : GoError)
    (h : w.ListTasks cfg.cliCluster = .error err) :
    (getList w cfg).result = .ret ([], some err) ∧
    (getList w cfg).trace = [.ListTasks cfg.cliCluster] ∧
    ∀ e ∈ (getList w cfg).trace, e.isDescribeInstances = false := by
  have hr : (getList w cfg).result = .ret ([], some err) := by
    simp [getList, Run.andThen, Run.emit, h]
  have ht : (getList w cfg).trace = [.ListTasks cfg.cliCluster] := by
    simp [getList, Run.andThen, Run.emit, h]
  refine ⟨hr, ht, ?_⟩
  intro e he
  rw [ht] at he
  simp at he
  subst he; rfl

/-- C4, at a cluster whose task listing fails. -/
theorem getList_listTasks_error_witness :
    listingFailsWorld.ListTasks defaultConfig.cliCluster = .error "ListTasks: request failed" ∧
    (getList listingFailsWorld defaultConfig).result =
      .ret ([], some "ListTasks: request failed") ∧
    (getList listingFailsWorld defaultConfig).trace = [.ListTasks "default"] :=
  have h := getList_listTasks_error listingFailsWorld defaultConfig
    "ListTasks: request failed" rfl
  ⟨rfl, h.1, h.2.1⟩

/-- C5, at the failing input: when the describe query of the one listed host fails,
`getContainerInstance` returns nil and `getList` crashes on `Ec2InstanceId`, before any
address is recorded; a failure of the address query alone is absorbed, the address
recorded being the empty string. -/
theorem getList_crashes_when_host_describe_fails :
    HostDescribeFails describeFailsWorld defaultConfig "host/1" ∧
    (getContainerInstance describeFailsWorld defaultConfig "host/1").result = .ret none ∧
    (getList describeFailsWorld defaultConfig).result = .crash ∧
    (resolveHosts addressFailsWorld defaultConfig ["host/1"]).result =
      .ret [("host/1", "")] :=
  ⟨⟨_, rfl⟩, by decide, by decide, by decide⟩

/-- C6: whatever the snapshots, every key `d` of a mapping that `getList` returns is not
the empty string and is the `DOMAIN` value, resolved from the owning task definition, of
at least one container of a task that `DescribeTasks` described. -/
theorem getList_key_has_container (w : World) (cfg : Config) (list : EndpointMap)
    (err : Option GoError) (d : String)
    (h : (getList w cfg).result = .ret (list, err)) (hd : d ∈ GoMap.keys list) :
    d ≠ "" ∧
    ∃ arns tasks, w.ListTasks cfg.cliCluster = .ok arns ∧
      w.DescribeTasks cfg.cliCluster arns = .ok tasks ∧
      ∃ t ∈ tasks, ∃ c ∈ t.Containers,
        (getContainerEnv w t.TaskDefinitionArn c.Name "DOMAIN").result = .ret d := by
  rcases (getList_returns w cfg list err h).2 with h0 | ⟨arns, tasks, hT, hD, hk⟩
  · subst h0; simp [GoMap.keys] at hd
  · obtain ⟨t, ht, c, hc, hdom, hne⟩ := hk.2 d hd
    exact ⟨hne, arns, tasks, hT, hD, t, ht, c, hc, hdom⟩

/-- C6, at the end-to-end scenario: the key `example.com` of the returned mapping is the
domain of the container `web`. -/
theorem getList_key_has_container_witness :
    (getList endToEndWorld defaultConfig).result =
      .ret ([("example.com", ["http://203.0.113.9:33000"])], none) ∧
    "example.com" ∈ GoMap.keys [("example.com", ["http://203.0.113.9:33000"])] ∧
    "example.com" ≠ "" :=
  ⟨by decide, by decide,
    (getList_key_has_container endToEndWorld defaultConfig
      [("example.com", ["http://203.0.113.9:33000"])] none "example.com"
      (by decide) (by decide)).1⟩

/-- C7: when all cluster queries succeed, `getList` returns without error a mapping whose
entry for every domain `d` is the discovery walk: the endpoints, in order, of the bindings
that pass the port check in a container whose domain is `d`, the tasks, their containers
and their bindings being walked in order.  Nothing is deduplicated: the length of the
entry is the number of passing bindings, and an endpoint occurs in it as many times as
there are passing bindings that produce it. -/
theorem getList_entry_is_discovery_walk (w : World) (cfg : Config) (tasks : List Task)
    (hosts : List String) (hq : QueriesSucceed w cfg tasks hosts) :
    ∃ ips list, (resolveHosts w cfg hosts).result = .ret ips ∧
      (getList w cfg).result = .ret (list, none) ∧
      ∀ d,
        list.at d = (passingBindings w cfg tasks d).map (fun tp => endpointOf ips tp.1 tp.2) ∧
        (list.at d).length = (passingBindings w cfg tasks d).length ∧
        ∀ u, (list.at d).count u =
          (passingBindings w cfg tasks d).countP (fun tp => endpointOf ips tp.1 tp.2 == u) := by
  obtain ⟨⟨arns, hT, hD⟩, hI, hH⟩ := hq
  obtain ⟨ips, list, hR, hL, _, _, hwalk, _⟩ :=
    getList_spec w cfg arns tasks hosts hT hD hI
      (hostAnswers_of_queriesSucceed w cfg tasks hosts ⟨⟨arns, hT, hD⟩, hI, hH⟩)
  refine ⟨ips, list, hR, hL, fun d => ?_⟩
  have he : list.at d =
      (passingBindings w cfg tasks d).map (fun tp => endpointOf ips tp.1 tp.2) := hwalk d
  refine ⟨he, by rw [he, List.length_map], fun u => ?_⟩
  rw [he, List.count, List.countP_map]
  rfl

theorem twin_queriesSucceed :
    QueriesSucceed twinWorld defaultConfig
      [onlyTask [boundContainer "web" 80 33000, boundContainer "api" 80 33000]]
      ["host/1"] := by
  refine ⟨⟨["task/1"], rfl, rfl⟩, rfl, ?_⟩
  intro i _
  exact ⟨"203.0.113.9", ⟨_, _, _, _, _, _, rfl, rfl, rfl, rfl⟩⟩

/-- C7, at a task with two containers that yield the same endpoint for `example.com`:
the queries succeed and the endpoint is returned twice. -/
theorem getList_entry_is_discovery_walk_witness :
    QueriesSucceed twinWorld defaultConfig
      [onlyTask [boundContainer "web" 80 33000, boundContainer "api" 80 33000]]
      ["host/1"] ∧
    (getList twinWorld defaultConfig).result =
      .ret ([("example.com", ["http://203.0.113.9:33000", "http://203.0.113.9:33000"])],
        none) ∧
    (passingBindings twinWorld defaultConfig
      [onlyTask [boundContainer "web" 80 33000, boundContainer "api" 80 33000]]
      "example.com").length = 2 :=
  have h := getList_entry_is_discovery_walk twinWorld defaultConfig
    [onlyTask [boundContainer "web" 80 33000, boundContainer "api" 80 33000]] ["host/1"]
    twin_queriesSucceed
  ⟨twin_queriesSucceed, by decide, by
    obtain ⟨ips, list, _, hL, hd⟩ := h
    have hl : (getList twinWorld defaultConfig).result =
      .ret ([("example.com", ["http://203.0.113.9:33000", "http://203.0.113.9:33000"])],
        none) := by decide
    rw [hl] at hL
    cases hL
    rw [← (hd "example.com").2.1]
    decide⟩

/-- C8: the port check of `getList` is textual containment.  An iteration of the binding
loop, which runs for a container with a domain, appends the binding's endpoint to the
entry of the domain when the check passes and leaves the mapping unchanged otherwise; it
appends an endpoint if and only if the decimal numeral of the container-side port occurs
in the allow-list string as a contiguous substring.  So the allow-list `8080` accepts the
container port `8` and the allow-list `280` accepts the port `80`, neither being one of
the comma-separated ports of its list. -/
theorem bindingStep_port_check_is_substring :
    (∀ (cfg : Config) (ips : IpMap) (t : Task) (domain : String) (list : EndpointMap)
        (p : NetworkBinding),
      (bindingStep cfg ips t domain list p).result =
        .ret (if passesPortCheck cfg p then
            GoMap.set list domain (list.at domain ++ [endpointOf ips t p])
          else list) ∧
      ((bindingStep cfg ips t domain list p).result =
          .ret (GoMap.set list domain (list.at domain ++ [endpointOf ips t p])) ↔
        IsSubstring (FormatInt p.ContainerPort) cfg.cliPorts) ∧
      ((bindingStep cfg ips t domain list p).result = .ret list ↔
        ¬ IsSubstring (FormatInt p.ContainerPort) cfg.cliPorts)) ∧
    (¬ InAllowList "8080" 8 ∧
      passesPortCheck { defaultConfig with cliPorts := "8080" }
        { ContainerPort := 8, HostPort := 33000 } = true) ∧
    (¬ InAllowList "280" 80 ∧
      passesPortCheck { defaultConfig with cliPorts := "280" }
        { ContainerPort := 80, HostPort := 33000 } = true) := by
  refine ⟨?_, ⟨by decide, by decide⟩, ⟨by decide, by decide⟩⟩
  intro cfg ips t domain list p
  have hr := bindingStep_result cfg ips t domain list p
  have hiff : passesPortCheck cfg p = true ↔
      IsSubstring (FormatInt p.ContainerPort) cfg.cliPorts := by
    unfold passesPortCheck; exact Contains_iff _ _
  have hne : GoMap.set list domain (list.at domain ++ [endpointOf ips t p]) ≠ list := by
    intro hc
    have := at_set_self list domain (list.at domain ++ [endpointOf ips t p])
    rw [hc] at this
    have hlen := congrArg List.length this
    simp at hlen
  refine ⟨hr, ?_, ?_⟩
  · rw [hr, ← hiff]
    by_cases hp : passesPortCheck cfg p = true
    · simp [hp]
    · simp only [hp, Bool.false_eq_true, if_false, Outcome.ret.injEq, iff_false]
      exact fun hc => hne hc.symm
  · rw [hr, ← hiff]
    by_cases hp : passesPortCheck cfg p = true
    · simp only [hp, if_true, Outcome.ret.injEq, not_true_eq_false, iff_false]
      exact hne
    · simp [hp]

/-- C9: when the listing queries answer and every listed host gets an address recorded,
a task whose host-instance identifier has an empty address in the lookup (the identifier
is not among the listed hosts, or its address query failed or gave the empty string) still
has each binding that passes the domain and port checks emitted: `getList` returns without
error and the entry of the domain contains `"http://:" ++` the decimal numeral of the
host-side port. -/
theorem getList_emits_with_empty_address (w : World) (cfg : Config) (arns : List String)
    (tasks : List Task) (hosts : List String)
    (hT : w.ListTasks cfg.cliCluster = .ok arns)
    (hD : w.DescribeTasks cfg.cliCluster arns = .ok tasks)
    (hI : w.ListContainerInstances cfg.cliCluster = .ok hosts)
    (hH : ∀ i ∈ hosts, ∃ ip, HostAnswers w cfg i ip)
    (t : Task) (ht : t ∈ tasks)
    (hEmpty : t.ContainerInstanceArn ∉ hosts ∨ HostAnswers w cfg t.ContainerInstanceArn "")
    (c : Container) (hc : c ∈ t.Containers) (d : String)
    (hd : (getContainerEnv w t.TaskDefinitionArn c.Name "DOMAIN").result = .ret d)
    (hne : d ≠ "") (p : NetworkBinding) (hp : p ∈ c.NetworkBindings)
    (hpass : Contains cfg.cliPorts (FormatInt p.ContainerPort) = true) :
    ∃ ips list, (resolveHosts w cfg hosts).result = .ret ips ∧
      ips.at t.ContainerInstanceArn = "" ∧
      (getList w cfg).result = .ret (list, none) ∧
      "http://:" ++ FormatInt p.HostPort ∈ list.at d := by
  obtain ⟨ips, list, hR, hL, hout, hin, hwalk, _⟩ :=
    getList_spec w cfg arns tasks hosts hT hD hI hH
  have hip : ips.at t.ContainerInstanceArn = "" := by
    by_cases hmem : t.ContainerInstanceArn ∈ hosts
    · rcases hEmpty with h | h
      · exact absurd hmem h
      · exact hin _ hmem "" h
    · exact hout _ hmem
  refine ⟨ips, list, hR, hip, hL, ?_⟩
  have hm := mem_discoveryWalk w cfg ips tasks t ht c hc d ⟨hd, hne⟩ p hp hpass
  rw [← hwalk d] at hm
  have he : endpointOf ips t p = "http://:" ++ FormatInt p.HostPort := by
    unfold endpointOf
    rw [hip]
    apply String.ext
    simp
  rw [← he]; exact hm

/-- C9, at the cluster whose address query fails: the binding `80 -> 33000` is emitted as
`http://:33000`. -/
theorem getList_emits_with_empty_address_witness :
    HostAnswers addressFailsWorld defaultConfig "host/1" "" ∧
    (getList addressFailsWorld defaultConfig).result =
      .ret ([("example.com", ["http://:33000"])], none) ∧
    "http://:33000" ∈ EndpointMap.at [("example.com", ["http://:33000"])] "example.com" :=
  have ha : HostAnswers addressFailsWorld defaultConfig "host/1" "" :=
    Or.inr ⟨⟨_, _, _, rfl, rfl⟩, rfl⟩
  have h := getList_emits_with_empty_address addressFailsWorld defaultConfig ["task/1"]
    [onlyTask [boundContainer "web" 80 33000]] ["host/1"] rfl rfl rfl
    (fun i hi => ⟨"", by
      have : i = "host/1" := by simpa using hi
      rw [this]; exact ha⟩)
    (onlyTask [boundContainer "web" 80 33000]) (List.mem_cons_self _ _) (Or.inr ha)
    (boundContainer "web" 80 33000) (List.mem_cons_self _ _) "example.com" (by decide)
    (by decide) { ContainerPort := 80, HostPort := 33000 } (List.mem_cons_self _ _)
    (by decide)
  ⟨ha, by decide, by
    obtain ⟨ips, list, _, _, hL, hm⟩ := h
    have hl : (getList addressFailsWorld defaultConfig).result =
      .ret ([("example.com", ["http://:33000"])], none) := by decide
    rw [hl] at hL
    cases hL
    exact hm⟩

/-- C10: after `getList` returned a mapping without error, `Push` hands exactly one
payload to the registry client, made of one record per key of the mapping (the domains of
the records are the keys, each once, in the order `range` visits them), every record
having type `ecs` and, as its list, the endpoint sequence of its domain unchanged; after
`getList` returned an error, `Push` sends nothing. -/
theorem push_payload_matches_mapping (w : World) (cfg : Config) (m : String)
    (list : EndpointMap) (err : Option GoError)
    (h : (getList w cfg).result = .ret (list, err)) :
    (err = none → ∃ b, sentPayloads (Push w cfg m).trace = [b] ∧
      (GoMap.keys list).Nodup ∧
      (b.map Backend.Domain).Perm (GoMap.keys list) ∧
      ∀ r ∈ b, r.Typ = "ecs" ∧ r.List = list.at r.Domain) ∧
    (err ≠ none → sentPayloads (Push w cfg m).trace = []) := by
  have hs := push_sent w cfg m list err h
  have hnd := keys_nodup_of_getList w cfg list err h
  constructor
  · intro he
    subst he
    refine ⟨(w.rangeOrder list).map toBackend, hs, hnd, ?_, ?_⟩
    · have := (w.rangeOrder_perm list).map Prod.fst
      simpa [GoMap.keys, toBackend, Function.comp_def] using this
    · intro r hr
      obtain ⟨dl, hdl, rfl⟩ := List.mem_map.mp hr
      have hmem : dl ∈ list := (w.rangeOrder_perm list).mem_iff.mp hdl
      refine ⟨rfl, ?_⟩
      exact (GoMap.get_of_mem [] list hnd dl.1 dl.2 hmem).symm
  · intro he
    cases err with
    | none => exact absurd rfl he
    | some e => exact hs

/-- C10, at the end-to-end scenario: `Push` sends the one record of `example.com`. -/
theorem push_payload_matches_mapping_witness :
    (getList endToEndWorld defaultConfig).result =
      .ret ([("example.com", ["http://203.0.113.9:33000"])], none) ∧
    sentPayloads (Push endToEndWorld defaultConfig "http://localhost:81").trace =
      [[{ Typ := "ecs", Domain := "example.com", List := ["http://203.0.113.9:33000"] }]] ∧
    (GoMap.keys [("example.com", ["http://203.0.113.9:33000"])]).Nodup :=
  have h := push_payload_matches_mapping endToEndWorld defaultConfig "http://localhost:81"
    [("example.com", ["http://203.0.113.9:33000"])] none (by decide)
  ⟨by decide, by decide, by
    obtain ⟨b, _, hn, _⟩ := h.1 rfl
    exact hn⟩

end MarcoEcs
